import Mathlib

/-!
Verification development for `convert_summary.py`, a one-file Markdown→PDF
converter.  The Python program consists of a block scanner
(`parse_markdown_to_pdf`), a table parser (`parse_table`) and an inline
formatter (`format_inline`).  Below we give a shallow embedding of these
three functions (input lines are modelled as `List String`; the produced
reportlab story is modelled as `List FlowEl`; the single runtime failure —
the `ZeroDivisionError` raised by `col_width = available_width / num_cols`
when a table header parses to zero cells — is modelled with `Except Unit`)
and prove properties of the embedding.
-/

set_option maxRecDepth 4000

/-- Python's whitespace set for `str.strip` / `str.rstrip` (ASCII part). -/
def isPySpace (c : Char) : Bool :=
  c = ' ' || c = '\t' || c = '\n' || c = '\r' || c = '\x0b' || c = '\x0c'

/-- Python `str.rstrip()` on a character list. -/
def rstripL (l : List Char) : List Char :=
  (l.reverse.dropWhile isPySpace).reverse

/-- Python `str.lstrip()` on a character list. -/
def lstripL (l : List Char) : List Char :=
  l.dropWhile isPySpace

/-- Python `str.strip()` on a character list. -/
def stripL (l : List Char) : List Char :=
  rstripL (lstripL l)

/-- Python `str.rstrip()`. -/
def rstripS (s : String) : String :=
  (rstripL s.toList).asString

/-- Python `str.strip()`. -/
def stripS (s : String) : String :=
  (stripL s.toList).asString

/-- Does `l` start with the pattern `p` (first argument)?  Python `str.startswith`. -/
def startsWithL : List Char → List Char → Bool
  | [], _ => true
  | _ :: _, [] => false
  | p :: ps, c :: cs => if c = p then startsWithL ps cs else false

/-- Python `s.startswith(p)`. -/
def startsWithS (s p : String) : Bool :=
  startsWithL p.toList s.toList

/-- Python slicing `s[n:]`. -/
def dropS (s : String) (n : Nat) : String :=
  (s.toList.drop n).asString

/-- Python `c in s` for a single character. -/
def hasCharL (c : Char) : List Char → Bool
  | [] => false
  | d :: t => (d = c) || hasCharL c t

/-- Python `'|' in s`. -/
def hasPipeS (s : String) : Bool :=
  hasCharL '|' s.toList

/-- Python `pat in s` (substring containment). -/
def containsSubL (pat : List Char) : List Char → Bool
  | [] => startsWithL pat []
  | c :: cs => startsWithL pat (c :: cs) || containsSubL pat cs

/-- Python `pat in s` on strings. -/
def containsSubS (s pat : String) : Bool :=
  containsSubL pat.toList s.toList

/-- Python `s.split('|')` on a character list. -/
def splitPipeL : List Char → List (List Char)
  | [] => [[]]
  | c :: cs =>
    if c = '|' then [] :: splitPipeL cs
    else
      match splitPipeL cs with
      | [] => [[c]]
      | f :: t => (c :: f) :: t

/-- Number of `'|'` characters in a list. -/
def countPipeL : List Char → Nat
  | [] => 0
  | c :: t => (if c = '|' then 1 else 0) + countPipeL t

/-- Python `[c.strip() for c in line.split('|')[1:-1]]` on a character list. -/
def cellsOfL (l : List Char) : List (List Char) :=
  (((splitPipeL l).drop 1).dropLast).map stripL

/-- Python `[c.strip() for c in line.split('|')[1:-1]]`. -/
def cellsOf (s : String) : List String :=
  (cellsOfL s.toList).map List.asString

/-- Python `'\n'.join(xs)`. -/
def joinNL : List String → String
  | [] => ""
  | [x] => x
  | x :: xs => x ++ "\n" ++ joinNL xs

/-- Python `s.replace(pat, rep)`: non-overlapping left-to-right literal
replacement.  `fuel` only guards termination; `fuel = s.length` always
suffices because every step consumes at least one character. -/
def replaceL (pat rep : List Char) : Nat → List Char → List Char
  | _, [] => []
  | 0, l => l
  | fuel + 1, c :: cs =>
    if startsWithL pat (c :: cs) then
      rep ++ replaceL pat rep fuel ((c :: cs).drop pat.length)
    else
      c :: replaceL pat rep fuel cs

/-- Helper for the lazy `D(.+?)D` regex: find the shortest split
`l = content ++ d ++ rest` with `content` nonempty. -/
def splitAtDelim (d : List Char) : List Char → Option (List Char × List Char)
  | [] => none
  | c :: cs =>
    if startsWithL d cs then some ([c], cs.drop d.length)
    else
      match splitAtDelim d cs with
      | some (content, rest) => some (c :: content, rest)
      | none => none

/-- Python `re.sub(D(.+?)D, wrap(\1), s)` for a literal delimiter `D`:
leftmost match, lazy (shortest, nonempty) content, replacement not
rescanned.  `fuel = s.length` always suffices. -/
def lazyReplaceL (d : List Char) (wrap : List Char → List Char) : Nat → List Char → List Char
  | _, [] => []
  | 0, l => l
  | fuel + 1, c :: cs =>
    if startsWithL d (c :: cs) then
      match splitAtDelim d ((c :: cs).drop d.length) with
      | some (content, rest) => wrap content ++ lazyReplaceL d wrap fuel rest
      | none => c :: lazyReplaceL d wrap fuel cs
    else c :: lazyReplaceL d wrap fuel cs

/-- Characters other than `'&'` (the class `[^&]` of the font-unescape regex). -/
def notAmp (x : Char) : Bool :=
  !(x = '&')

/-- Python `re.sub(r'&lt;(font[^&]*)&gt;', r'<\1>', s)`: at each position,
match the literal `&lt;font`, then the maximal run of non-`&` characters,
then the literal `&gt;`.  `fuel = s.length` always suffices. -/
def fontUnesc : Nat → List Char → List Char
  | _, [] => []
  | 0, l => l
  | fuel + 1, c :: cs =>
    if startsWithL "&lt;font".toList (c :: cs) then
      let after := (c :: cs).drop 8
      let run := after.takeWhile notAmp
      let rest := after.dropWhile notAmp
      if startsWithL "&gt;".toList rest then
        ['<'] ++ "font".toList ++ run ++ ['>'] ++ fontUnesc fuel (rest.drop 4)
      else c :: fontUnesc fuel cs
    else c :: fontUnesc fuel cs

/-- Replacement template `<b><i>\1</i></b>` of the triple-asterisk rule. -/
def wrapBoldItal (c : List Char) : List Char :=
  "<b><i>".toList ++ c ++ "</i></b>".toList

/-- Replacement template `<b>\1</b>` of the double-asterisk rule. -/
def wrapBold (c : List Char) : List Char :=
  "<b>".toList ++ c ++ "</b>".toList

/-- Replacement template `<i>\1</i>` of the single-asterisk rule. -/
def wrapItal (c : List Char) : List Char :=
  "<i>".toList ++ c ++ "</i>".toList

/-- Replacement template of the backtick rule. -/
def wrapFont (c : List Char) : List Char :=
  "<font face=\"Courier\" size=\"9\" color=\"#c0392b\">".toList ++ c ++ "</font>".toList

/-- Embedding of `format_inline` (source lines 142–153): escape `&`; the four
lazy span substitutions; escape `<` and `>`; un-escape the five literal tag
strings; un-escape `&lt;font...&gt;` via the pattern rule. -/
def format_inline (text : String) : String :=
  let t0 := text.toList
  let t1 := replaceL "&".toList "&amp;".toList t0.length t0
  let t2 := lazyReplaceL "***".toList wrapBoldItal t1.length t1
  let t3 := lazyReplaceL "**".toList wrapBold t2.length t2
  let t4 := lazyReplaceL "*".toList wrapItal t3.length t3
  let t5 := lazyReplaceL "`".toList wrapFont t4.length t4
  let t6 := replaceL "<".toList "&lt;".toList t5.length t5
  let t7 := replaceL ">".toList "&gt;".toList t6.length t6
  let t8 := replaceL "&lt;b&gt;".toList "<b>".toList t7.length t7
  let t9 := replaceL "&lt;/b&gt;".toList "</b>".toList t8.length t8
  let t10 := replaceL "&lt;i&gt;".toList "<i>".toList t9.length t9
  let t11 := replaceL "&lt;/i&gt;".toList "</i>".toList t10.length t10
  let t12 := replaceL "&lt;/font&gt;".toList "</font>".toList t11.length t11
  let t13 := fontUnesc t12.length t12
  t13.asString

/-- The generic escaping step of `format_inline` in isolation:
`s.replace('<', '&lt;').replace('>', '&gt;')`. -/
def escLtGt (s : String) : String :=
  let a := replaceL "<".toList "&lt;".toList s.toList.length s.toList
  (replaceL ">".toList "&gt;".toList a.length a).asString

/-- FlowEl elements appended to the reportlab `story` by the scanner.  Each
constructor records the element kind, its paragraph style where relevant,
and the payload the Python code passes: `paraTitle` is
`Paragraph(text, styles['DocTitle'])`, `spacerMm h` is `Spacer(1, h*mm)`,
`hruleTenths t col` is `HRFlowable(width="100%", thickness=t/10, color=col)`,
`pre` is `Preformatted`, and `tableF` is the `Table` built by `parse_table`
with its `format_inline`-formatted header and body cell texts. -/
inductive FlowEl where
  | paraTitle (text : String)
  | paraH2 (text : String)
  | paraH3 (text : String)
  | paraBody (text : String)
  | paraBullet (text : String)
  | spacerMm (h : Nat)
  | hruleTenths (thick : Nat) (color : String)
  | pre (text : String)
  | tableF (header : List String) (rows : List (List String))
deriving DecidableEq

/-- Embedding of `parse_table` (source lines 156–192).  Fewer than 3 lines:
`None` (modelled `.ok none`).  The header cells are `split('|')[1:-1]`,
stripped; data rows are rows from index 2 on, split the same way.  When the
header yields zero cells, `col_width = available_width / num_cols` raises
`ZeroDivisionError`, modelled as `.error ()`.  Otherwise the built `Table`
carries the cells formatted with `format_inline`. -/
def parse_table (tls : List String) : Except Unit (Option FlowEl) :=
  if tls.length < 3 then .ok none
  else if (cellsOf (tls.headD "")).length = 0 then .error ()
  else
    .ok (some (.tableF ((cellsOf (tls.headD "")).map format_inline)
      (((tls.drop 2).map cellsOf).map (fun r => r.map format_inline))))

/-- `story.append`s of one loop iteration, then the rest of the scan. -/
def emitThen (bs : List FlowEl) : Except Unit (List FlowEl) → Except Unit (List FlowEl)
  | .error e => .error e
  | .ok r => .ok (bs ++ r)

/-- Python `lines[i].strip().startswith('```')`: the closing-fence test of
the code-block collection loop (source line 108). -/
def isFenceEnd (x : String) : Bool :=
  startsWithS (stripS x) "```"

/-- Python `'|' in lines[i]`: the collection test of the table loop
(source line 118), applied to the raw line. -/
def hasPipeRaw (x : String) : Bool :=
  hasCharL '|' x.toList

/-- One iteration of the `while i < len(lines)` loop of
`parse_markdown_to_pdf` (source lines 71–136) at current line `l` with
following lines `ls`.  Returns the flow elements appended during the
iteration and the lines remaining afterwards, or the `ZeroDivisionError`
propagated out of `parse_table`. -/
def scanStep (l : String) (ls : List String) : Except Unit (List FlowEl × List String) :=
  if rstripS l = "" then .ok ([], ls)
  else if startsWithS (rstripS l) "# " then
    .ok ([.paraTitle (format_inline (dropS (rstripS l) 2))], ls)
  else if startsWithS (rstripS l) "## " then
    .ok ([.spacerMm 3, .hruleTenths 10 "#cccccc",
          .paraH2 (format_inline (dropS (rstripS l) 3))], ls)
  else if startsWithS (rstripS l) "### " then
    .ok ([.paraH3 (format_inline (dropS (rstripS l) 4))], ls)
  else if stripS (rstripS l) = "---" then
    .ok ([.spacerMm 3, .hruleTenths 5 "#dddddd", .spacerMm 3], ls)
  else if startsWithS (rstripS l) "```" then
    .ok ([.pre (joinNL ((ls.takeWhile (fun x => !(isFenceEnd x))).map rstripS))],
         (ls.dropWhile (fun x => !(isFenceEnd x))).drop 1)
  else if hasPipeS (rstripS l) && (match ls with
      | [] => false
      | nxt :: _ => containsSubS nxt "---") then
    match parse_table (((l :: ls).takeWhile hasPipeRaw).map rstripS) with
    | .error e => .error e
    | .ok none => .ok ([], (l :: ls).dropWhile hasPipeRaw)
    | .ok (some t) => .ok ([.spacerMm 2, t, .spacerMm 2], (l :: ls).dropWhile hasPipeRaw)
  else if startsWithS (rstripS l) "- " then
    .ok ([.paraBullet ("&bull; " ++ format_inline (dropS (rstripS l) 2))], ls)
  else
    .ok ([.paraBody (format_inline (rstripS l))], ls)

/-- The scanning loop of `parse_markdown_to_pdf`: run `scanStep` until the
lines are exhausted.  `fuel` only guards termination; `fuel = lines.length`
always suffices because every iteration consumes at least the current
line (proved below). -/
def scanAux : Nat → List String → Except Unit (List FlowEl)
  | _, [] => .ok []
  | 0, _ => .ok []
  | fuel + 1, l :: ls =>
    match scanStep l ls with
    | .error e => .error e
    | .ok (bs, rest) => emitThen bs (scanAux fuel rest)

/-- Embedding of the whole scan of `parse_markdown_to_pdf`: the sequence of
flow elements appended to `story` for the given input lines (lines are the
file's lines with their trailing newline dropped; every use in the source
is insensitive to that newline). -/
def scan (lines : List String) : Except Unit (List FlowEl) :=
  scanAux lines.length lines

/-! ### Basic facts about the string primitives -/

theorem toList_asString (l : List Char) : (List.asString l).toList = l := rfl

theorem asString_toList (s : String) : s.toList.asString = s := rfl

theorem startsWithL_cons {p : Char} {ps l : List Char} :
    startsWithL (p :: ps) l = true ↔ ∃ t, l = p :: t ∧ startsWithL ps t = true := by
  cases l with
  | nil => simp [startsWithL]
  | cons c cs =>
    by_cases h : c = p
    · subst h
      simp [startsWithL]
    · simp only [startsWithL, if_neg h]
      constructor
      · intro hf
        exact absurd hf (by simp)
      · rintro ⟨t, ht, _⟩
        exact absurd (List.cons.injEq .. ▸ ht).1 h

theorem hasCharL_iff {c : Char} {l : List Char} : hasCharL c l = true ↔ c ∈ l := by
  induction l with
  | nil => simp [hasCharL]
  | cons d t ih =>
    simp only [hasCharL, Bool.or_eq_true, decide_eq_true_eq, ih, List.mem_cons]
    constructor
    · rintro (h | h)
      · exact Or.inl h.symm
      · exact Or.inr h
    · rintro (h | h)
      · exact Or.inl h.symm
      · exact Or.inr h

theorem string_ne_empty {s : String} {c : Char} {t : List Char}
    (h : s.toList = c :: t) : s ≠ "" := by
  intro he
  rw [he] at h
  exact nomatch h

theorem dropWhile_append_one {p : α → Bool} {c : α} (h : p c = false) (xs : List α) :
    List.dropWhile p (xs ++ [c]) = xs.dropWhile p ++ [c] := by
  induction xs with
  | nil => simp [List.dropWhile, h]
  | cons a t ih =>
    by_cases ha : p a
    · simp [List.dropWhile_cons, ha, ih]
    · simp [List.dropWhile_cons, ha]

theorem rstripL_cons_keep {c : Char} (h : isPySpace c = false) (l : List Char) :
    rstripL (c :: l) = c :: rstripL l := by
  unfold rstripL
  rw [List.reverse_cons, dropWhile_append_one h, List.reverse_append]
  simp

theorem lstripL_cons_keep {c : Char} (h : isPySpace c = false) (l : List Char) :
    lstripL (c :: l) = c :: l := by
  unfold lstripL
  rw [List.dropWhile_cons, if_neg (by simp [h])]

theorem stripL_cons_keep {c : Char} (h : isPySpace c = false) (l : List Char) :
    stripL (c :: l) = c :: rstripL l := by
  unfold stripL
  rw [lstripL_cons_keep h, rstripL_cons_keep h]

theorem mem_dropWhile_of {p : α → Bool} {a : α} {l : List α}
    (hm : a ∈ l) (ha : p a = false) : a ∈ l.dropWhile p := by
  induction l with
  | nil => cases hm
  | cons b t ih =>
    rw [List.dropWhile_cons]
    by_cases hb : p b
    · rw [if_pos hb]
      rcases List.mem_cons.mp hm with h | h
      · subst h; rw [ha] at hb; cases hb
      · exact ih h
    · rw [if_neg hb]
      exact hm

theorem mem_rstripL_of {a : Char} {l : List Char}
    (hm : a ∈ l) (ha : isPySpace a = false) : a ∈ rstripL l := by
  unfold rstripL
  rw [List.mem_reverse]
  exact mem_dropWhile_of (List.mem_reverse.mpr hm) ha

theorem mem_stripL_of {a : Char} {l : List Char}
    (hm : a ∈ l) (ha : isPySpace a = false) : a ∈ stripL l :=
  mem_rstripL_of (mem_dropWhile_of hm ha) ha

theorem mem_of_mem_rstripL {a : Char} {l : List Char} (hm : a ∈ rstripL l) : a ∈ l := by
  unfold rstripL at hm
  rw [List.mem_reverse] at hm
  exact List.mem_reverse.mp ((List.dropWhile_suffix isPySpace).sublist.subset hm)

theorem toList_rstripS (s : String) : (rstripS s).toList = rstripL s.toList := rfl

theorem toList_stripS (s : String) : (stripS s).toList = stripL s.toList := rfl

theorem hasPipeRaw_of_rstrip {l : String} (h : hasPipeS (rstripS l) = true) :
    hasPipeRaw l = true := by
  unfold hasPipeS at h
  unfold hasPipeRaw
  rw [hasCharL_iff] at h ⊢
  rw [toList_rstripS] at h
  exact mem_of_mem_rstripL h

theorem strip_ne_dashes_of_pipe {s : String} (h : hasPipeS s = true) :
    stripS s ≠ "---" := by
  intro he
  unfold hasPipeS at h
  rw [hasCharL_iff] at h
  have hmem : '|' ∈ stripL s.toList := mem_stripL_of h (by rfl)
  have : (stripS s).toList = "---".toList := congrArg String.toList he
  rw [toList_stripS] at this
  rw [this] at hmem
  simp at hmem

theorem ne_empty_of_pipe {s : String} (h : hasPipeS s = true) : s ≠ "" := by
  intro he
  subst he
  exact nomatch h

/-! ### Facts about the scanner step and loop -/

theorem scanAux_nil (fuel : Nat) : scanAux fuel [] = .ok [] := by
  cases fuel <;> rfl

theorem emitThen_nil (r : Except Unit (List FlowEl)) : emitThen [] r = r := by
  cases r <;> simp [emitThen]

theorem scanAux_zero (ls : List String) : scanAux 0 ls = .ok [] := by
  cases ls <;> rfl

theorem scanStep_suffix {l : String} {ls rest : List String} {bs : List FlowEl}
    (h : scanStep l ls = .ok (bs, rest)) : rest <:+ ls := by
  unfold scanStep at h
  split_ifs at h with h1 h2 h3 h4 h5 h6 h7 h8
  · simp only [Except.ok.injEq, Prod.mk.injEq] at h
    rw [← h.2]
  · simp only [Except.ok.injEq, Prod.mk.injEq] at h
    rw [← h.2]
  · simp only [Except.ok.injEq, Prod.mk.injEq] at h
    rw [← h.2]
  · simp only [Except.ok.injEq, Prod.mk.injEq] at h
    rw [← h.2]
  · simp only [Except.ok.injEq, Prod.mk.injEq] at h
    rw [← h.2]
  · simp only [Except.ok.injEq, Prod.mk.injEq] at h
    rw [← h.2]
    exact (List.drop_suffix 1 _).trans (List.dropWhile_suffix _)
  · rw [Bool.and_eq_true] at h7
    have hp : hasPipeRaw l = true := hasPipeRaw_of_rstrip h7.1
    cases hpt : parse_table (((l :: ls).takeWhile hasPipeRaw).map rstripS) with
    | error e => rw [hpt] at h; exact Except.noConfusion h
    | ok o =>
      rw [hpt] at h
      cases o with
      | none =>
        simp only [Except.ok.injEq, Prod.mk.injEq] at h
        rw [← h.2, List.dropWhile_cons, if_pos hp]
        exact List.dropWhile_suffix _
      | some t =>
        simp only [Except.ok.injEq, Prod.mk.injEq] at h
        rw [← h.2, List.dropWhile_cons, if_pos hp]
        exact List.dropWhile_suffix _
  · simp only [Except.ok.injEq, Prod.mk.injEq] at h
    rw [← h.2]
  · simp only [Except.ok.injEq, Prod.mk.injEq] at h
    rw [← h.2]

theorem scanStep_error {l : String} {ls : List String} {e : Unit}
    (h : scanStep l ls = .error e) :
    parse_table (((l :: ls).takeWhile hasPipeRaw).map rstripS) = .error e := by
  unfold scanStep at h
  split_ifs at h with h1 h2 h3 h4 h5 h6 h7 h8
  cases hpt : parse_table (((l :: ls).takeWhile hasPipeRaw).map rstripS) with
  | error e2 =>
    rw [hpt] at h
  | ok o =>
    rw [hpt] at h
    cases o with
    | none => exact Except.noConfusion h
    | some t => exact Except.noConfusion h

theorem scanAux_fuel : ∀ (n m : Nat) (ls : List String),
    ls.length ≤ n → ls.length ≤ m → scanAux n ls = scanAux m ls := by
  intro n
  induction n with
  | zero =>
    intro m ls hn _
    have : ls = [] := List.length_eq_zero.mp (Nat.le_zero.mp hn)
    subst this
    rw [scanAux_nil, scanAux_nil]
  | succ n ih =>
    intro m ls hn hm
    cases ls with
    | nil => rw [scanAux_nil, scanAux_nil]
    | cons l t =>
      cases m with
      | zero => exact absurd hm (by simp)
      | succ m =>
        show scanAux (n + 1) (l :: t) = scanAux (m + 1) (l :: t)
        unfold scanAux
        cases hst : scanStep l t with
        | error e => rfl
        | ok pr =>
          obtain ⟨bs, rest⟩ := pr
          have hsub : rest.length ≤ t.length := (scanStep_suffix hst).length_le
          have hln : rest.length ≤ n := le_trans hsub (Nat.le_of_succ_le_succ (by simpa using hn))
          have hlm : rest.length ≤ m := le_trans hsub (Nat.le_of_succ_le_succ (by simpa using hm))
          exact congrArg (emitThen bs) (ih m rest hln hlm)

theorem scanAux_error_src : ∀ (fuel : Nat) (lines : List String),
    scanAux fuel lines = .error () →
    ∃ suf, suf <:+ lines ∧ parse_table ((suf.takeWhile hasPipeRaw).map rstripS) = .error () := by
  intro fuel
  induction fuel with
  | zero =>
    intro lines h
    rw [scanAux_zero] at h
    exact Except.noConfusion h
  | succ n ih =>
    intro lines h
    cases lines with
    | nil =>
      rw [scanAux_nil] at h
      exact Except.noConfusion h
    | cons l t =>
      unfold scanAux at h
      cases hst : scanStep l t with
      | error e =>
        cases e
        exact ⟨l :: t, List.suffix_refl _, scanStep_error hst⟩
      | ok pr =>
        obtain ⟨bs, rest⟩ := pr
        rw [hst] at h
        have h2 : emitThen bs (scanAux n rest) = Except.error () := h
        have hrec : scanAux n rest = .error () := by
          cases hr : scanAux n rest with
          | error e2 => cases e2; rfl
          | ok r =>
            rw [hr] at h2
            simp [emitThen] at h2
        obtain ⟨suf, hsuf, hpt⟩ := ih rest hrec
        exact ⟨suf, hsuf.trans ((scanStep_suffix hst).trans (List.suffix_cons l t)), hpt⟩

/-! ### Which branch of `scanStep` fires -/

theorem not_true_of_false {b : Bool} (h : b = false) : ¬(b = true) := by
  rw [h]
  simp

theorem startsWithL_head {p : Char} {ps l : List Char} (h : startsWithL (p :: ps) l = true) :
    ∃ t, l = p :: t := by
  obtain ⟨t, ht, _⟩ := startsWithL_cons.mp h
  exact ⟨t, ht⟩

theorem startsWithL_shape {p : List Char} : ∀ {l : List Char},
    startsWithL p l = true → ∃ t, l = p ++ t := by
  induction p with
  | nil => exact fun {l} _ => ⟨l, rfl⟩
  | cons a ps ih =>
    intro l h
    obtain ⟨t, ht, h2⟩ := startsWithL_cons.mp h
    obtain ⟨u, hu⟩ := ih h2
    exact ⟨u, by rw [ht, hu]; rfl⟩

theorem startsWithL_false_of_ne {p c : Char} {ps t : List Char} (h : ¬(c = p)) :
    startsWithL (p :: ps) (c :: t) = false :=
  if_neg h

theorem ne_of_toList_head {s : String} {c : Char} {t : List Char} {r : String} {d : Char}
    {u : List Char} (hs : s.toList = c :: t) (hr : r.toList = d :: u) (hcd : c ≠ d) : s ≠ r := by
  intro he
  rw [he, hr] at hs
  injection hs with h1 _
  exact hcd h1.symm

theorem stripS_head {s : String} {c : Char} {t : List Char}
    (hs : s.toList = c :: t) (hc : isPySpace c = false) :
    (stripS s).toList = c :: rstripL t := by
  rw [toList_stripS, hs, stripL_cons_keep hc]

/-- Branch 2 of the scanner loop: a (trailing-stripped) line starting with
`"# "` always produces exactly the `DocTitle` paragraph. -/
theorem scanStep_title {l : String} {ls : List String}
    (h : startsWithS (rstripS l) "# " = true) :
    scanStep l ls = .ok ([.paraTitle (format_inline (dropS (rstripS l) 2))], ls) := by
  have h' : startsWithL "# ".toList (rstripS l).toList = true := h
  rw [show "# ".toList = ['#', ' '] from rfl] at h'
  obtain ⟨t, ht⟩ := startsWithL_head h'
  unfold scanStep
  rw [if_neg (string_ne_empty ht), if_pos h]

/-- Branch 3: a line starting with `"## "` produces spacer, rule and `H2`. -/
theorem scanStep_h2 {l : String} {ls : List String}
    (h : startsWithS (rstripS l) "## " = true) :
    scanStep l ls = .ok ([.spacerMm 3, .hruleTenths 10 "#cccccc",
      .paraH2 (format_inline (dropS (rstripS l) 3))], ls) := by
  have h' : startsWithL "## ".toList (rstripS l).toList = true := h
  rw [show "## ".toList = ['#', '#', ' '] from rfl] at h'
  obtain ⟨t, ht0⟩ := startsWithL_shape h'
  have ht : (rstripS l).toList = '#' :: '#' :: ' ' :: t := by simpa using ht0
  have h1 : startsWithS (rstripS l) "# " = false := by
    show startsWithL "# ".toList (rstripS l).toList = false
    rw [show "# ".toList = ['#', ' '] from rfl, ht]
    simp [startsWithL]
  unfold scanStep
  rw [if_neg (string_ne_empty ht), if_neg (not_true_of_false h1), if_pos h]

/-- Branch 4: a line starting with `"### "` produces the `H3` paragraph. -/
theorem scanStep_h3 {l : String} {ls : List String}
    (h : startsWithS (rstripS l) "### " = true) :
    scanStep l ls = .ok ([.paraH3 (format_inline (dropS (rstripS l) 4))], ls) := by
  have h' : startsWithL "### ".toList (rstripS l).toList = true := h
  rw [show "### ".toList = ['#', '#', '#', ' '] from rfl] at h'
  obtain ⟨t, ht0⟩ := startsWithL_shape h'
  have ht : (rstripS l).toList = '#' :: '#' :: '#' :: ' ' :: t := by simpa using ht0
  have h1 : startsWithS (rstripS l) "# " = false := by
    show startsWithL "# ".toList (rstripS l).toList = false
    rw [show "# ".toList = ['#', ' '] from rfl, ht]
    simp [startsWithL]
  have h2 : startsWithS (rstripS l) "## " = false := by
    show startsWithL "## ".toList (rstripS l).toList = false
    rw [show "## ".toList = ['#', '#', ' '] from rfl, ht]
    simp [startsWithL]
  unfold scanStep
  rw [if_neg (string_ne_empty ht), if_neg (not_true_of_false h1),
    if_neg (not_true_of_false h2), if_pos h]

/-- Branch 9 for a line of four or more `#`: when such a line contains no
pipe character it is handled by the final generic-paragraph rule. -/
theorem scanStep_hash4 {l : String} {ls : List String}
    (h : startsWithS (rstripS l) "####" = true)
    (hnp : hasPipeS (rstripS l) = false) :
    scanStep l ls = .ok ([.paraBody (format_inline (rstripS l))], ls) := by
  have h' : startsWithL "####".toList (rstripS l).toList = true := h
  rw [show "####".toList = ['#', '#', '#', '#'] from rfl] at h'
  obtain ⟨t, ht0⟩ := startsWithL_shape h'
  have ht : (rstripS l).toList = '#' :: '#' :: '#' :: '#' :: t := by simpa using ht0
  have h1 : startsWithS (rstripS l) "# " = false := by
    show startsWithL "# ".toList (rstripS l).toList = false
    rw [show "# ".toList = ['#', ' '] from rfl, ht]
    simp [startsWithL]
  have h2 : startsWithS (rstripS l) "## " = false := by
    show startsWithL "## ".toList (rstripS l).toList = false
    rw [show "## ".toList = ['#', '#', ' '] from rfl, ht]
    simp [startsWithL]
  have h3 : startsWithS (rstripS l) "### " = false := by
    show startsWithL "### ".toList (rstripS l).toList = false
    rw [show "### ".toList = ['#', '#', '#', ' '] from rfl, ht]
    simp [startsWithL]
  have h4 : stripS (rstripS l) ≠ "---" :=
    ne_of_toList_head (stripS_head ht (by rfl)) (show "---".toList = '-' :: ['-', '-'] from rfl)
      (by decide)
  have h5 : startsWithS (rstripS l) "```" = false := by
    show startsWithL "```".toList (rstripS l).toList = false
    rw [show "```".toList = ['\x60', '\x60', '\x60'] from rfl, ht]
    exact startsWithL_false_of_ne (by decide)
  have h6 : (hasPipeS (rstripS l) && (match ls with
      | [] => false
      | nxt :: _ => containsSubS nxt "---")) = false := by
    rw [hnp, Bool.false_and]
  have h7 : startsWithS (rstripS l) "- " = false := by
    show startsWithL "- ".toList (rstripS l).toList = false
    rw [show "- ".toList = ['-', ' '] from rfl, ht]
    exact startsWithL_false_of_ne (by decide)
  unfold scanStep
  rw [if_neg (string_ne_empty ht), if_neg (not_true_of_false h1),
    if_neg (not_true_of_false h2), if_neg (not_true_of_false h3), if_neg h4,
    if_neg (not_true_of_false h5), if_neg (not_true_of_false h6),
    if_neg (not_true_of_false h7)]

/-- Branch 6: a line starting with a triple backtick opens a fenced code
block; the raw following lines up to the closing fence are collected
verbatim (each only trailing-stripped), and the closing fence is skipped. -/
theorem scanStep_fence {l : String} {ls : List String}
    (h : startsWithS (rstripS l) "```" = true) :
    scanStep l ls =
      .ok ([.pre (joinNL ((ls.takeWhile (fun x => !(isFenceEnd x))).map rstripS))],
           (ls.dropWhile (fun x => !(isFenceEnd x))).drop 1) := by
  have h' : startsWithL "```".toList (rstripS l).toList = true := h
  rw [show "```".toList = ['\x60', '\x60', '\x60'] from rfl] at h'
  obtain ⟨t, ht⟩ := startsWithL_head h'
  have h1 : startsWithS (rstripS l) "# " = false := by
    show startsWithL "# ".toList (rstripS l).toList = false
    rw [show "# ".toList = ['#', ' '] from rfl, ht]
    exact startsWithL_false_of_ne (by decide)
  have h2 : startsWithS (rstripS l) "## " = false := by
    show startsWithL "## ".toList (rstripS l).toList = false
    rw [show "## ".toList = ['#', '#', ' '] from rfl, ht]
    exact startsWithL_false_of_ne (by decide)
  have h3 : startsWithS (rstripS l) "### " = false := by
    show startsWithL "### ".toList (rstripS l).toList = false
    rw [show "### ".toList = ['#', '#', '#', ' '] from rfl, ht]
    exact startsWithL_false_of_ne (by decide)
  have h4 : stripS (rstripS l) ≠ "---" :=
    ne_of_toList_head (stripS_head ht (by rfl)) (show "---".toList = '-' :: ['-', '-'] from rfl)
      (by decide)
  unfold scanStep
  rw [if_neg (string_ne_empty ht), if_neg (not_true_of_false h1),
    if_neg (not_true_of_false h2), if_neg (not_true_of_false h3), if_neg h4, if_pos h]

/-- Branch 7 with fewer than 3 collected pipe lines: the table lookahead
fires, `parse_table` returns `None`, nothing is emitted and the collected
lines are skipped. -/
theorem scanStep_table_short {l nxt : String} {ls : List String}
    (h1 : startsWithS (rstripS l) "# " = false)
    (h2 : startsWithS (rstripS l) "## " = false)
    (h3 : startsWithS (rstripS l) "### " = false)
    (h5 : startsWithS (rstripS l) "```" = false)
    (hp : hasPipeS (rstripS l) = true)
    (hn : containsSubS nxt "---" = true)
    (hlen : ((l :: nxt :: ls).takeWhile hasPipeRaw).length < 3) :
    scanStep l (nxt :: ls) = .ok ([], (l :: nxt :: ls).dropWhile hasPipeRaw) := by
  have h4 : stripS (rstripS l) ≠ "---" := strip_ne_dashes_of_pipe hp
  have hcond : (hasPipeS (rstripS l) && (match nxt :: ls with
      | [] => false
      | nxt :: _ => containsSubS nxt "---")) = true := by
    show (hasPipeS (rstripS l) && containsSubS nxt "---") = true
    rw [hp, hn]
    rfl
  have hpt : parse_table (((l :: nxt :: ls).takeWhile hasPipeRaw).map rstripS) = .ok none := by
    unfold parse_table
    rw [if_pos (by rw [List.length_map]; exact hlen)]
  unfold scanStep
  rw [if_neg (ne_empty_of_pipe hp), if_neg (not_true_of_false h1),
    if_neg (not_true_of_false h2), if_neg (not_true_of_false h3), if_neg h4,
    if_neg (not_true_of_false h5), if_pos hcond, hpt]

/-- A pipe-containing final line (no successor) is never a table start: the
lookahead condition fails and the line is handled by the list-item or
paragraph rule. -/
theorem scanStep_last_pipe {l : String}
    (h1 : startsWithS (rstripS l) "# " = false)
    (h2 : startsWithS (rstripS l) "## " = false)
    (h3 : startsWithS (rstripS l) "### " = false)
    (h5 : startsWithS (rstripS l) "```" = false)
    (hp : hasPipeS (rstripS l) = true) :
    scanStep l [] = .ok ([if startsWithS (rstripS l) "- " = true then
        .paraBullet ("&bull; " ++ format_inline (dropS (rstripS l) 2))
      else .paraBody (format_inline (rstripS l))], []) := by
  have h4 : stripS (rstripS l) ≠ "---" := strip_ne_dashes_of_pipe hp
  have hcond : (hasPipeS (rstripS l) && (match ([] : List String) with
      | [] => false
      | nxt :: _ => containsSubS nxt "---")) = false := by
    show (hasPipeS (rstripS l) && false) = false
    exact Bool.and_false _
  unfold scanStep
  rw [if_neg (ne_empty_of_pipe hp), if_neg (not_true_of_false h1),
    if_neg (not_true_of_false h2), if_neg (not_true_of_false h3), if_neg h4,
    if_neg (not_true_of_false h5), if_neg (not_true_of_false hcond)]
  by_cases hb : startsWithS (rstripS l) "- " = true
  · rw [if_pos hb, if_pos hb]
  · rw [if_neg hb, if_neg hb]

/-! ### Facts about `parse_table` and table cells -/

theorem splitPipeL_length (l : List Char) : (splitPipeL l).length = countPipeL l + 1 := by
  induction l with
  | nil => rfl
  | cons c cs ih =>
    unfold splitPipeL countPipeL
    by_cases hc : c = '|'
    · rw [if_pos hc, if_pos hc]
      simp only [List.length_cons, ih]
      omega
    · rw [if_neg hc, if_neg hc]
      cases hsp : splitPipeL cs with
      | nil => rw [hsp] at ih; exact absurd ih.symm (by simp)
      | cons f t =>
        rw [hsp] at ih
        simp only [List.length_cons] at ih ⊢
        omega

theorem cellsOf_length (s : String) : (cellsOf s).length = countPipeL s.toList - 1 := by
  unfold cellsOf cellsOfL
  rw [List.length_map, List.length_map, List.length_dropLast, List.length_drop,
    splitPipeL_length]
  omega

theorem parse_table_ok_some {tls : List String} {hd : List String} {r : List (List String)}
    (hp : parse_table tls = .ok (some (.tableF hd r))) :
    hd = (cellsOf (tls.headD "")).map format_inline ∧
    r.length = tls.length - 2 ∧ 3 ≤ tls.length := by
  unfold parse_table at hp
  split_ifs at hp with hlen hz
  · exact absurd hp (by simp)
  · simp only [Except.ok.injEq, Option.some.injEq, FlowEl.tableF.injEq] at hp
    refine ⟨hp.1.symm, ?_, by omega⟩
    rw [← hp.2, List.length_map, List.length_map, List.length_drop]

theorem parse_table_error_iff (tls : List String) :
    parse_table tls = .error () ↔ 3 ≤ tls.length ∧ cellsOf (tls.headD "") = [] := by
  unfold parse_table
  split_ifs with hlen hz
  · constructor
    · intro hE
      exact absurd hE (by simp)
    · rintro ⟨h3, _⟩
      omega
  · constructor
    · intro _
      exact ⟨by omega, List.length_eq_zero.mp hz⟩
    · intro _
      rfl
  · constructor
    · intro hE
      exact absurd hE (by simp)
    · rintro ⟨_, hnil⟩
      exact absurd (by rw [hnil]; rfl) hz

/-! ### Identity and character lemmas for the inline formatter -/

theorem containsSubL_head_mem {c : Char} {p l : List Char}
    (h : containsSubL (c :: p) l = true) : c ∈ l := by
  induction l with
  | nil => exact absurd h (by simp [containsSubL, startsWithL])
  | cons d t ih =>
    unfold containsSubL at h
    rw [Bool.or_eq_true] at h
    rcases h with h | h
    · obtain ⟨u, hu⟩ := startsWithL_head h
      rw [hu]
      exact List.mem_cons_self c u
    · exact List.mem_cons_of_mem d (ih h)

theorem containsSubL_false_of_not_mem {c : Char} {p l : List Char} (h : ¬ c ∈ l) :
    containsSubL (c :: p) l = false := by
  cases hc : containsSubL (c :: p) l
  · rfl
  · exact absurd (containsSubL_head_mem hc) h

theorem containsSubL_cons_false {pat : List Char} {c : Char} {cs : List Char}
    (h : containsSubL pat (c :: cs) = false) :
    startsWithL pat (c :: cs) = false ∧ containsSubL pat cs = false := by
  unfold containsSubL at h
  rw [Bool.or_eq_false_iff] at h
  exact h

theorem replaceL_id {pat rep : List Char} : ∀ (fuel : Nat) {l : List Char},
    containsSubL pat l = false → replaceL pat rep fuel l = l := by
  intro fuel l
  induction l generalizing fuel with
  | nil => intro _; cases fuel <;> rfl
  | cons c cs ih =>
    intro h
    obtain ⟨hsw, hrest⟩ := containsSubL_cons_false h
    cases fuel with
    | zero => rfl
    | succ fuel =>
      unfold replaceL
      rw [if_neg (not_true_of_false hsw), ih fuel hrest]

theorem lazyReplaceL_id {d : List Char} {wrap : List Char → List Char} :
    ∀ (fuel : Nat) {l : List Char},
    containsSubL d l = false → lazyReplaceL d wrap fuel l = l := by
  intro fuel l
  induction l generalizing fuel with
  | nil => intro _; cases fuel <;> rfl
  | cons c cs ih =>
    intro h
    obtain ⟨hsw, hrest⟩ := containsSubL_cons_false h
    cases fuel with
    | zero => rfl
    | succ fuel =>
      unfold lazyReplaceL
      rw [if_neg (not_true_of_false hsw), ih fuel hrest]

theorem fontUnesc_id : ∀ (fuel : Nat) {l : List Char},
    containsSubL "&lt;font".toList l = false → fontUnesc fuel l = l := by
  intro fuel l
  induction l generalizing fuel with
  | nil => intro _; cases fuel <;> rfl
  | cons c cs ih =>
    intro h
    obtain ⟨hsw, hrest⟩ := containsSubL_cons_false h
    cases fuel with
    | zero => rfl
    | succ fuel =>
      unfold fontUnesc
      rw [if_neg (not_true_of_false hsw), ih fuel hrest]

theorem mem_replaceL {pat rep : List Char} {x : Char} : ∀ (fuel : Nat) (l : List Char),
    x ∈ replaceL pat rep fuel l → x ∈ l ∨ x ∈ rep := by
  intro fuel
  induction fuel with
  | zero =>
    intro l h
    cases l with
    | nil => exact absurd h (by simp [replaceL])
    | cons c cs => exact Or.inl h
  | succ fuel ih =>
    intro l h
    cases l with
    | nil => exact absurd h (by simp [replaceL])
    | cons c cs =>
      unfold replaceL at h
      by_cases hsw : startsWithL pat (c :: cs) = true
      · rw [if_pos hsw] at h
        rcases List.mem_append.mp h with h2 | h2
        · exact Or.inr h2
        · rcases ih _ h2 with h3 | h3
          · exact Or.inl (List.drop_subset _ _ h3)
          · exact Or.inr h3
      · rw [if_neg hsw] at h
        rcases List.mem_cons.mp h with h2 | h2
        · exact Or.inl (h2 ▸ List.mem_cons_self c cs)
        · rcases ih cs h2 with h3 | h3
          · exact Or.inl (List.mem_cons_of_mem c h3)
          · exact Or.inr h3

theorem startsWithL_single {c d : Char} {t : List Char} :
    startsWithL [c] (d :: t) = true ↔ d = c := by
  by_cases h : d = c <;> simp [startsWithL, h]

theorem replaceL_single_removes {c : Char} {rep : List Char} (hrep : ¬ c ∈ rep) :
    ∀ (fuel : Nat) (l : List Char), l.length ≤ fuel →
    ¬ c ∈ replaceL [c] rep fuel l := by
  intro fuel
  induction fuel with
  | zero =>
    intro l hl
    have : l = [] := List.length_eq_zero.mp (Nat.le_zero.mp hl)
    subst this
    simp [replaceL]
  | succ fuel ih =>
    intro l hl
    cases l with
    | nil => simp [replaceL]
    | cons d t =>
      unfold replaceL
      by_cases hsw : startsWithL [c] (d :: t) = true
      · rw [if_pos hsw]
        intro hmem
        rcases List.mem_append.mp hmem with h | h
        · exact hrep h
        · have hdrop : List.drop [c].length (d :: t) = t := rfl
          rw [hdrop] at h
          exact ih t (Nat.le_of_succ_le_succ (by simpa using hl)) h
      · rw [if_neg hsw]
        intro hmem
        rcases List.mem_cons.mp hmem with h | h
        · exact hsw (startsWithL_single.mpr h.symm)
        · exact ih t (Nat.le_of_succ_le_succ hl) h

theorem escLtGt_no_angle (s : String) :
    ¬ '<' ∈ (escLtGt s).toList ∧ ¬ '>' ∈ (escLtGt s).toList := by
  have hA : ¬ '<' ∈ replaceL "<".toList "&lt;".toList s.toList.length s.toList :=
    replaceL_single_removes (by decide) s.toList.length s.toList (Nat.le_refl _)
  constructor
  · intro hmem
    rcases mem_replaceL _ _ hmem with h | h
    · exact hA h
    · exact absurd h (by decide)
  · exact replaceL_single_removes (by decide) _ _ (Nat.le_refl _)

theorem format_inline_esc (s : String)
    (hstar : ¬ '*' ∈ s.toList) (htick : ¬ '\x60' ∈ s.toList) (hamp : ¬ '&' ∈ s.toList)
    (h1 : containsSubL "&lt;b&gt;".toList (escLtGt s).toList = false)
    (h2 : containsSubL "&lt;/b&gt;".toList (escLtGt s).toList = false)
    (h3 : containsSubL "&lt;i&gt;".toList (escLtGt s).toList = false)
    (h4 : containsSubL "&lt;/i&gt;".toList (escLtGt s).toList = false)
    (h5 : containsSubL "&lt;/font&gt;".toList (escLtGt s).toList = false)
    (h6 : containsSubL "&lt;font".toList (escLtGt s).toList = false) :
    format_inline s = escLtGt s := by
  have e1 : replaceL "&".toList "&amp;".toList s.toList.length s.toList = s.toList :=
    replaceL_id _ (containsSubL_false_of_not_mem hamp)
  have e2 : lazyReplaceL "***".toList wrapBoldItal s.toList.length s.toList = s.toList :=
    lazyReplaceL_id _ (containsSubL_false_of_not_mem hstar)
  have e3 : lazyReplaceL "**".toList wrapBold s.toList.length s.toList = s.toList :=
    lazyReplaceL_id _ (containsSubL_false_of_not_mem hstar)
  have e4 : lazyReplaceL "*".toList wrapItal s.toList.length s.toList = s.toList :=
    lazyReplaceL_id _ (containsSubL_false_of_not_mem hstar)
  have e5 : lazyReplaceL "`".toList wrapFont s.toList.length s.toList = s.toList :=
    lazyReplaceL_id _ (containsSubL_false_of_not_mem htick)
  have hE : (escLtGt s).toList =
      replaceL ">".toList "&gt;".toList
        (replaceL "<".toList "&lt;".toList s.toList.length s.toList).length
        (replaceL "<".toList "&lt;".toList s.toList.length s.toList) := rfl
  have e6 : replaceL "&lt;b&gt;".toList "<b>".toList (escLtGt s).toList.length
      (escLtGt s).toList = (escLtGt s).toList := replaceL_id _ h1
  have e7 : replaceL "&lt;/b&gt;".toList "</b>".toList (escLtGt s).toList.length
      (escLtGt s).toList = (escLtGt s).toList := replaceL_id _ h2
  have e8 : replaceL "&lt;i&gt;".toList "<i>".toList (escLtGt s).toList.length
      (escLtGt s).toList = (escLtGt s).toList := replaceL_id _ h3
  have e9 : replaceL "&lt;/i&gt;".toList "</i>".toList (escLtGt s).toList.length
      (escLtGt s).toList = (escLtGt s).toList := replaceL_id _ h4
  have e10 : replaceL "&lt;/font&gt;".toList "</font>".toList (escLtGt s).toList.length
      (escLtGt s).toList = (escLtGt s).toList := replaceL_id _ h5
  have e11 : fontUnesc (escLtGt s).toList.length (escLtGt s).toList = (escLtGt s).toList :=
    fontUnesc_id _ h6
  show (fontUnesc _ _).asString = escLtGt s
  rw [e1, e2, e3, e4, e5, ← hE, e6, e7, e8, e9, e10, e11]
  exact asString_toList _

theorem emitThen_single_nil {x : FlowEl} (fuel : Nat) :
    emitThen [x] (scanAux fuel []) = .ok [x] := by
  rw [scanAux_nil]
  simp [emitThen]

/-! ### Claims -/

/-- C1 counterexample: the scanner is not total.  The table input
`["|", "|---|", "|x|"]` is collected as a 3-line table whose header row
splits to zero cells, and the column-width division of `parse_table`
raises `ZeroDivisionError` — modelled as `.error ()`. -/
theorem c1_cex : scan ["|", "|---|", "|x|"] = .error () := rfl

/-- C1 (amended): scanning is total except for a single parse-level
failure mode — `parse_table` errs exactly on a collected table of at
least 3 lines whose header row yields zero cells, and every error of the
scanning loop arises from `parse_table` applied to the pipe-run starting
at some suffix of the input lines. -/
theorem c1_zero_column_only_error :
    (∀ tls : List String, parse_table tls = .error () ↔
        3 ≤ tls.length ∧ cellsOf (tls.headD "") = []) ∧
    (∀ (fuel : Nat) (lines : List String), scanAux fuel lines = .error () →
        ∃ suf, suf <:+ lines ∧
          parse_table ((suf.takeWhile hasPipeRaw).map rstripS) = .error ()) :=
  ⟨parse_table_error_iff, scanAux_error_src⟩

/-- C1 witness: the error-source characterisation applied at the concrete
erroring input. -/
theorem c1_zero_column_only_error_witness :
    ∃ suf, suf <:+ ["|", "|---|", "|x|"] ∧
      parse_table ((suf.takeWhile hasPipeRaw).map rstripS) = .error () :=
  c1_zero_column_only_error.2 3 ["|", "|---|", "|x|"] rfl

/-- C2 counterexample: non-empty edge fields of the non-fully-piped header
`a | b | c` are NOT kept — `split('|')[1:-1]` drops the first and last
fields unconditionally, so the emitted table header is `["b"]`, not
`["a", "b", "c"]`. -/
theorem c2_cex :
    scan ["a | b | c", "x|---", "x | y | z"] =
      .ok [.spacerMm 2, .tableF ["b"] [["y"]], .spacerMm 2] ∧
    (["b"] : List String) ≠ ["a", "b", "c"] :=
  ⟨rfl, by decide⟩

/-- C2 (amended): header cells are the fields of row 0 split on `|` with
the first and last fields discarded unconditionally (also when non-empty)
and each remaining field trimmed, so the cell count is the pipe count
minus one; data rows are the rows from index 2 on, parsed the same way,
and the emitted row count equals the number of data lines. -/
theorem c2_cells :
    (∀ s : String, (cellsOf s).length = countPipeL s.toList - 1) ∧
    (∀ (tls hd : List String) (r : List (List String)),
        parse_table tls = .ok (some (.tableF hd r)) →
        hd = (cellsOf (tls.headD "")).map format_inline ∧
        r.length = tls.length - 2 ∧ 3 ≤ tls.length) :=
  ⟨cellsOf_length, fun _ _ _ h => parse_table_ok_some h⟩

/-- C2 witness: the table-shape part applied to a concrete well-formed
fully-piped table. -/
theorem c2_cells_witness :
    (["a", "b"] : List String) =
      (cellsOf ((["| a | b |", "|---|---|", "| x | y |"] : List String).headD
        "")).map format_inline ∧
    ([["x", "y"]] : List (List String)).length =
      (["| a | b |", "|---|---|", "| x | y |"] : List String).length - 2 ∧
    3 ≤ (["| a | b |", "|---|---|", "| x | y |"] : List String).length :=
  c2_cells.2 ["| a | b |", "|---|---|", "| x | y |"] ["a", "b"] [["x", "y"]] rfl

/-- C3 counterexample: a literal `<b>` typed in the raw source does NOT
render as escaped text — the closed-world un-escape of step 7 is purely
textual and turns it back into a live tag. -/
theorem c3_cex : format_inline "<b>" = "<b>" ∧ "<b>" ≠ "&lt;b&gt;" :=
  ⟨rfl, by decide⟩

/-- C3 (amended): the generic escaping step removes every literal `<` and
`>` (they appear only as entities); for a raw line free of `&`, `*` and
backtick whose escaped form contains none of the tag strings of the
un-escape vocabulary, `format_inline` is exactly that escaping; but the
final un-escape step reverses the escaping for every occurrence of the
tag vocabulary regardless of origin, so a literal `<i>` or `<font q>`
typed in the source becomes a live tag while other text such as `<d>`
stays escaped. -/
theorem c3_escape :
    (∀ s : String, ¬ '<' ∈ (escLtGt s).toList ∧ ¬ '>' ∈ (escLtGt s).toList) ∧
    (∀ s : String, ¬ '*' ∈ s.toList → ¬ '\x60' ∈ s.toList → ¬ '&' ∈ s.toList →
        containsSubL "&lt;b&gt;".toList (escLtGt s).toList = false →
        containsSubL "&lt;/b&gt;".toList (escLtGt s).toList = false →
        containsSubL "&lt;i&gt;".toList (escLtGt s).toList = false →
        containsSubL "&lt;/i&gt;".toList (escLtGt s).toList = false →
        containsSubL "&lt;/font&gt;".toList (escLtGt s).toList = false →
        containsSubL "&lt;font".toList (escLtGt s).toList = false →
        format_inline s = escLtGt s) ∧
    format_inline "<i>" = "<i>" ∧
    format_inline "<font q>" = "<font q>" ∧
    format_inline "x<d>y" = "x&lt;d&gt;y" :=
  ⟨escLtGt_no_angle,
   fun s h1 h2 h3 h4 h5 h6 h7 h8 h9 => format_inline_esc s h1 h2 h3 h4 h5 h6 h7 h8 h9,
   rfl, rfl, rfl⟩

/-- C3 witness: the universal escaping conjunct applied at a concrete
line containing literal angle brackets. -/
theorem c3_escape_witness : format_inline "ab <d> ef" = escLtGt "ab <d> ef" :=
  c3_escape.2.1 "ab <d> ef" (by decide) (by decide) (by decide) (by decide)
    (by decide) (by decide) (by decide) (by decide) (by decide)

/-- C4 counterexample: the emitted code-block content is not byte-identical
modulo trailing-newline normalization to the between-fence lines — each
collected line is `rstrip`ed, so trailing tabs and spaces inside the
fence are also removed (`"a\t"` is emitted as `"a"`). -/
theorem c4_cex : scan ["```", "a\t", "```"] = .ok [.pre "a"] ∧ "a" ≠ "a\t" :=
  ⟨rfl, by decide⟩

/-- C4 (amended): for every fenced code block the emitted content is the
lines strictly between the opening fence and the first closing fence,
each trailing-whitespace-stripped, joined by newline, with no inline
formatting applied; when no closing fence exists the block extends to the
end of the input without error. -/
theorem c4_fence :
    ∀ (l : String) (ls : List String) (fuel : Nat),
      startsWithS (rstripS l) "```" = true →
      scanAux (fuel + 1) (l :: ls) =
        emitThen [.pre (joinNL ((ls.takeWhile (fun x => !(isFenceEnd x))).map rstripS))]
          (scanAux fuel ((ls.dropWhile (fun x => !(isFenceEnd x))).drop 1)) ∧
      ((∀ x ∈ ls, isFenceEnd x = false) →
        scanAux (fuel + 1) (l :: ls) = .ok [.pre (joinNL (ls.map rstripS))]) := by
  intro l ls fuel h
  constructor
  · conv_lhs => unfold scanAux
    rw [scanStep_fence h]
  · intro hnc
    have htw : ls.takeWhile (fun x => !(isFenceEnd x)) = ls :=
      List.takeWhile_eq_self_iff.mpr (fun x hx => by rw [hnc x hx]; rfl)
    have hdw : ls.dropWhile (fun x => !(isFenceEnd x)) = [] :=
      List.dropWhile_eq_nil_iff.mpr (fun x hx => by rw [hnc x hx]; rfl)
    conv_lhs => unfold scanAux
    rw [scanStep_fence h, htw, hdw]
    rw [show List.drop 1 ([] : List String) = [] from rfl]
    exact emitThen_single_nil fuel

/-- C4 witness: both conjuncts at a concrete unterminated fence. -/
theorem c4_fence_witness :
    scanAux 1 ["```", "a*b"] =
      emitThen [.pre (joinNL (((["a*b"] : List String).takeWhile
          (fun x => !(isFenceEnd x))).map rstripS))]
        (scanAux 0 (((["a*b"] : List String).dropWhile (fun x => !(isFenceEnd x))).drop 1)) ∧
    scanAux 1 ["```", "a*b"] = .ok [.pre (joinNL ((["a*b"] : List String).map rstripS))] :=
  ⟨(c4_fence "```" ["a*b"] 0 rfl).1, (c4_fence "```" ["a*b"] 0 rfl).2 (by decide)⟩

/-- C5 counterexample: the span regexes use `(.+?)` — one or more
characters — so an empty delimited span is NOT rewritten into an empty
markup span: `****` becomes `<i>*</i>*` (the single-asterisk rule matches
a one-character span `*`), not `<b></b>`, and two adjacent backticks are
left as literal characters. -/
theorem c5_cex :
    format_inline "****" = "<i>*</i>*" ∧ ("<i>*</i>*" : String) ≠ "<b></b>" ∧
    format_inline "``" = "``" :=
  ⟨rfl, by decide, rfl⟩

/-- C5 (amended): the four span regular expressions match lazily over ONE
OR MORE characters: nonempty spans (also of a single character) are
rewritten to their markup, while a pair of delimiters with nothing
between them, or a lone delimiter, stays literal. -/
theorem c5_spans :
    format_inline "***x***" = "<b><i>x</i></b>" ∧
    format_inline "**x**" = "<b>x</b>" ∧
    format_inline "*x*" = "<i>x</i>" ∧
    format_inline "`x`" = "<font face=\"Courier\" size=\"9\" color=\"#c0392b\">x</font>" ∧
    format_inline "**" = "**" ∧
    format_inline "`" = "`" :=
  ⟨rfl, rfl, rfl, rfl, rfl, rfl⟩

/-- C6 (confirmed): when the table lookahead fires (current trimmed line
has a pipe and is not blank, a heading, a rule or a fence; the next raw
line contains `---`) but fewer than 3 consecutive pipe-containing lines
are collected, the scan of the whole input equals the scan of the input
with the collected lines dropped: no Table block, no paragraph, no
spacers, no error — the lines disappear. -/
theorem c6_short_table :
    ∀ (l nxt : String) (ls : List String) (fuel : Nat),
      startsWithS (rstripS l) "# " = false →
      startsWithS (rstripS l) "## " = false →
      startsWithS (rstripS l) "### " = false →
      startsWithS (rstripS l) "```" = false →
      hasPipeS (rstripS l) = true →
      containsSubS nxt "---" = true →
      ((l :: nxt :: ls).takeWhile hasPipeRaw).length < 3 →
      scanAux (fuel + 1) (l :: nxt :: ls) =
        scanAux fuel ((l :: nxt :: ls).dropWhile hasPipeRaw) := by
  intro l nxt ls fuel h1 h2 h3 h5 hp hn hlen
  conv_lhs => unfold scanAux
  rw [scanStep_table_short h1 h2 h3 h5 hp hn hlen]
  exact emitThen_nil _

/-- C6 witness: a concrete two-line false-positive table lookahead. -/
theorem c6_short_table_witness :
    scanAux 2 ["a|b", "x --- y"] =
      scanAux 1 ((["a|b", "x --- y"] : List String).dropWhile hasPipeRaw) :=
  c6_short_table "a|b" "x --- y" [] 1 rfl rfl rfl rfl rfl rfl (by decide)

/-- C7 counterexample: the raw line `"# "` begins with one `#` and a
literal space, yet it is classified as a generic paragraph (its text is
`"#"`), because classification happens after the trailing-whitespace trim
turns it into `"#"`. -/
theorem c7_cex :
    scan ["# "] = .ok [.paraBody "#"] ∧ startsWithS "# " "# " = true :=
  ⟨rfl, rfl⟩

/-- C7 (amended): classification operates on the trailing-whitespace-
stripped line.  Exactly one, two or three `#` followed by a space give a
Title, SectionHeading (with its preceding spacer and rule) or SubHeading
whose text is the stripped line with the `#`-run and exactly one
following space removed, inline-formatted; a line of four or more `#`
(containing no pipe) falls through to the generic paragraph rule. -/
theorem c7_headings :
    (∀ (l : String) (ls : List String) (fuel : Nat),
        startsWithS (rstripS l) "# " = true →
        scanAux (fuel + 1) (l :: ls) =
          emitThen [.paraTitle (format_inline (dropS (rstripS l) 2))] (scanAux fuel ls)) ∧
    (∀ (l : String) (ls : List String) (fuel : Nat),
        startsWithS (rstripS l) "## " = true →
        scanAux (fuel + 1) (l :: ls) =
          emitThen [.spacerMm 3, .hruleTenths 10 "#cccccc",
            .paraH2 (format_inline (dropS (rstripS l) 3))] (scanAux fuel ls)) ∧
    (∀ (l : String) (ls : List String) (fuel : Nat),
        startsWithS (rstripS l) "### " = true →
        scanAux (fuel + 1) (l :: ls) =
          emitThen [.paraH3 (format_inline (dropS (rstripS l) 4))] (scanAux fuel ls)) ∧
    (∀ (l : String) (ls : List String) (fuel : Nat),
        startsWithS (rstripS l) "####" = true → hasPipeS (rstripS l) = false →
        scanAux (fuel + 1) (l :: ls) =
          emitThen [.paraBody (format_inline (rstripS l))] (scanAux fuel ls)) := by
  refine ⟨?_, ?_, ?_, ?_⟩
  · intro l ls fuel h
    conv_lhs => unfold scanAux
    rw [scanStep_title h]
  · intro l ls fuel h
    conv_lhs => unfold scanAux
    rw [scanStep_h2 h]
  · intro l ls fuel h
    conv_lhs => unfold scanAux
    rw [scanStep_h3 h]
  · intro l ls fuel h hnp
    conv_lhs => unfold scanAux
    rw [scanStep_hash4 h hnp]

/-- C7 witness: the four heading conjuncts at concrete lines. -/
theorem c7_headings_witness :
    scanAux 1 ["# a"] =
      emitThen [.paraTitle (format_inline (dropS (rstripS "# a") 2))] (scanAux 0 []) ∧
    scanAux 1 ["## a"] =
      emitThen [.spacerMm 3, .hruleTenths 10 "#cccccc",
        .paraH2 (format_inline (dropS (rstripS "## a") 3))] (scanAux 0 []) ∧
    scanAux 1 ["### a"] =
      emitThen [.paraH3 (format_inline (dropS (rstripS "### a") 4))] (scanAux 0 []) ∧
    scanAux 1 ["#### a"] =
      emitThen [.paraBody (format_inline (rstripS "#### a"))] (scanAux 0 []) :=
  ⟨c7_headings.1 "# a" [] 0 rfl, c7_headings.2.1 "## a" [] 0 rfl,
   c7_headings.2.2.1 "### a" [] 0 rfl, c7_headings.2.2.2 "#### a" [] 0 rfl rfl⟩

/-- C8 (confirmed): every loop iteration either raises or emits its blocks
in front of the blocks of the remaining lines, and the remaining lines
are a suffix of the lines following the current one — so blocks appear
in the order of their defining lines and no emitted block spans lines
consumed by an earlier block; in particular the four-line example
document yields exactly Title, then spacer + rule + SectionHeading, then
ListItem, then Paragraph with the bold span resolved. -/
theorem c8_order :
    (∀ (fuel : Nat) (l : String) (ls : List String),
        scanAux (fuel + 1) (l :: ls) = .error () ∨
        ∃ bs rest, rest <:+ ls ∧
          scanAux (fuel + 1) (l :: ls) = emitThen bs (scanAux fuel rest)) ∧
    scan ["# Title", "## Section", "- item one", "plain text with **bold**"] =
      .ok [.paraTitle "Title", .spacerMm 3, .hruleTenths 10 "#cccccc", .paraH2 "Section",
           .paraBullet "&bull; item one", .paraBody "plain text with <b>bold</b>"] := by
  constructor
  · intro fuel l ls
    cases hst : scanStep l ls with
    | error e =>
      left
      conv_lhs => unfold scanAux
      rw [hst]
    | ok pr =>
      obtain ⟨bs, rest⟩ := pr
      refine Or.inr ⟨bs, rest, scanStep_suffix hst, ?_⟩
      conv_lhs => unfold scanAux
      rw [hst]
  · rfl

/-- C9 (confirmed): the scanning loop terminates — every successful
iteration strictly decreases the number of remaining lines (it consumes
at least the current line), and therefore the result of `scanAux` is
independent of the fuel once the fuel is at least the number of lines. -/
theorem c9_progress :
    (∀ (l : String) (ls rest : List String) (bs : List FlowEl),
        scanStep l ls = .ok (bs, rest) → rest.length < (l :: ls).length) ∧
    (∀ (n m : Nat) (ls : List String), ls.length ≤ n → ls.length ≤ m →
        scanAux n ls = scanAux m ls) := by
  constructor
  · intro l ls rest bs h
    simp only [List.length_cons]
    exact Nat.lt_succ_of_le (scanStep_suffix h).length_le
  · exact scanAux_fuel

/-- C9 witness: fuel-independence at a concrete input. -/
theorem c9_progress_witness : scanAux 5 ["# t"] = scanAux 1 ["# t"] :=
  c9_progress.2 5 1 ["# t"] (by decide) (by decide)

/-- C10 (confirmed): a pipe-containing line that is the last line of the
document (and is not blank, a heading, a rule or a fence) is never
treated as a table start — the lookahead `i + 1 < len(lines)` fails, and
the line is handled by the list-item or paragraph rule; the scanner never
reads a line beyond the final one. -/
theorem c10_last_pipe :
    ∀ (l : String) (fuel : Nat),
      startsWithS (rstripS l) "# " = false →
      startsWithS (rstripS l) "## " = false →
      startsWithS (rstripS l) "### " = false →
      startsWithS (rstripS l) "```" = false →
      hasPipeS (rstripS l) = true →
      scanAux (fuel + 1) [l] =
        .ok [if startsWithS (rstripS l) "- " = true then
            FlowEl.paraBullet ("&bull; " ++ format_inline (dropS (rstripS l) 2))
          else FlowEl.paraBody (format_inline (rstripS l))] := by
  intro l fuel h1 h2 h3 h5 hp
  conv_lhs => unfold scanAux
  rw [scanStep_last_pipe h1 h2 h3 h5 hp]
  exact emitThen_single_nil fuel

/-- C10 witness: a concrete final pipe line becomes a paragraph. -/
theorem c10_last_pipe_witness :
    scanAux 1 ["a | b"] =
      .ok [if startsWithS (rstripS "a | b") "- " = true then
          FlowEl.paraBullet ("&bull; " ++ format_inline (dropS (rstripS "a | b") 2))
        else FlowEl.paraBody (format_inline (rstripS "a | b"))] :=
  c10_last_pipe "a | b" 0 rfl rfl rfl rfl rfl
